import Mathlib

/-!
Verification of the Fnloc metrics engine.

This file embeds the core of the Fnloc repository (a per-function Rust
source-code metrics tool) as Lean definitions and proves properties of it:

* `src/analyzer/cyclomatic_complexity.rs` — decision-point counting
  (`calculate_cyclomatic_complexity` and its recursive helpers);
* `src/analyzer/nesting_depth.rs` — maximum-nesting-depth computation
  (`calculate_nesting_depth` and its recursive helpers);
* `src/analyzer/mod.rs` — the line classifier `count_function_lines` and
  the lenient by-name entry points
  `calculate_cyclomatic_complexity_from_source` /
  `calculate_nesting_depth_from_source`.

The AST below models the fragment of `syn`'s tree that the analyzers
inspect: every expression variant the Rust `match` handles explicitly gets
a constructor, and `eother` stands for all remaining variants, which the
Rust code sends to the catch-all `_ => 0` / `_ => current_depth` arms.
Parsing (`syn::parse_file`) is an external collaborator; its outcome is
modelled as `Option (List Item)` — `none` for a parse failure, `some items`
for the parsed file's top-level items.
-/

namespace Fnloc

/-- Binary operators, split exactly as the analyzers split them:
`syn::BinOp::And`, `syn::BinOp::Or`, and everything else. -/
inductive BinOp where
  | and
  | or
  | other
deriving DecidableEq

mutual

/-- Expressions: one constructor per `syn::Expr` variant handled explicitly
by `analyze_expression` / `analyze_expression_nesting`; `eother` covers the
catch-all arm (literals, paths, ...). -/
inductive Expr where
  | eif : Expr → Block → Option Expr → Expr
  | ematch : Expr → List Arm → Expr
  | ewhile : Expr → Block → Expr
  | eforLoop : Expr → Block → Expr
  | eloop : Block → Expr
  | ebinary : BinOp → Expr → Expr → Expr
  | etry : Expr → Expr
  | ereturn : Option Expr → Expr
  | ebreak : Option Expr → Expr
  | econtinue : Expr
  | eblock : Block → Expr
  | eunsafeBlk : Block → Expr
  | easync : Block → Expr
  | eclosure : Expr → Expr
  | ecall : Expr → List Expr → Expr
  | emethodCall : Expr → List Expr → Expr
  | earray : List Expr → Expr
  | etuple : List Expr → Expr
  | efield : Expr → Expr
  | eindex : Expr → Expr → Expr
  | eassign : Expr → Expr → Expr
  | ereference : Expr → Expr
  | eunary : Expr → Expr
  | ecast : Expr → Expr
  | erange : Option Expr → Option Expr → Expr
  | estruct : List Expr → Option Expr → Expr
  | eparen : Expr → Expr
  | egroup : Expr → Expr
  | eother : Expr

/-- A `syn::Arm`: optional guard expression and body expression
(the pattern is never inspected by the analyzers). -/
inductive Arm where
  | mk : Option Expr → Expr → Arm

/-- A `syn::Stmt`: expression statement, `let` binding with optional
initializer, nested item, or opaque macro invocation. -/
inductive Stmt where
  | sexpr : Expr → Stmt
  | slocal : Option Expr → Stmt
  | sitem : Item → Stmt
  | smac : Stmt

/-- A `syn::Block`: an ordered list of statements. -/
inductive Block where
  | mk : List Stmt → Block

/-- A `syn::Item` as far as the analyzers care: a function item, a module
(which may contain further items), or any other item. -/
inductive Item where
  | ifn : ItemFn → Item
  | imod : List Item → Item
  | iother : Item

/-- A `syn::ItemFn`: the signature's identifier and the body block. -/
inductive ItemFn where
  | mk : String → Block → ItemFn

end

/-- The function's name (`func.sig.ident`). -/
def ItemFn.name : ItemFn → String
  | .mk n _ => n

/-- The function's body block (`func.block`). -/
def ItemFn.block : ItemFn → Block
  | .mk _ b => b

/-- The arm's guard expression, when present. -/
def Arm.guard : Arm → Option Expr
  | .mk g _ => g

/-- The arm's body expression. -/
def Arm.body : Arm → Expr
  | .mk _ b => b

mutual

/-- Mirrors `calculate_cyclomatic_complexity` in
`src/analyzer/cyclomatic_complexity.rs`: base complexity 1 plus the
function body's contribution. -/
def calculate_cyclomatic_complexity : ItemFn → Nat
  | .mk _ b => 1 + analyze_block b

/-- Mirrors `analyze_block`: sum of the statements' contributions. -/
def analyze_block : Block → Nat
  | .mk stmts => analyze_stmtList stmts

/-- The `for stmt in &block.stmts` accumulation loop of `analyze_block`. -/
def analyze_stmtList : List Stmt → Nat
  | [] => 0
  | s :: rest => analyze_statement s + analyze_stmtList rest

/-- Mirrors `analyze_statement`: expression statements and `let` initializers
recurse; items go to `analyze_item`; macros contribute 0. -/
def analyze_statement : Stmt → Nat
  | .sexpr e => analyze_expression e
  | .slocal (some init) => analyze_expression init
  | .slocal none => 0
  | .sitem it => analyze_item it
  | .smac => 0

/-- Mirrors `analyze_expression`: the decision-point count of one expression,
case by case as in the Rust `match`. -/
def analyze_expression : Expr → Nat
  | .eif c t e => 1 + analyze_expression c + analyze_block t + analyze_optExpr e
  | .ematch s arms => 1 + analyze_expression s + analyze_armList arms
  | .ewhile c b => 1 + analyze_expression c + analyze_block b
  | .eforLoop i b => 1 + analyze_expression i + analyze_block b
  | .eloop b => 1 + analyze_block b
  | .ebinary op l r =>
      (match op with
        | .and => 1
        | .or => 1
        | .other => 0) + analyze_expression l + analyze_expression r
  | .etry e => 1 + analyze_expression e
  | .ereturn e => 1 + analyze_optExpr e
  | .ebreak e => 1 + analyze_optExpr e
  | .econtinue => 1
  | .eblock b => analyze_block b
  | .eunsafeBlk b => analyze_block b
  | .easync b => analyze_block b
  | .eclosure body => analyze_expression body
  | .ecall f args => analyze_expression f + analyze_exprList args
  | .emethodCall r args => analyze_expression r + analyze_exprList args
  | .earray es => analyze_exprList es
  | .etuple es => analyze_exprList es
  | .efield b => analyze_expression b
  | .eindex e i => analyze_expression e + analyze_expression i
  | .eassign l r => analyze_expression l + analyze_expression r
  | .ereference e => analyze_expression e
  | .eunary e => analyze_expression e
  | .ecast e => analyze_expression e
  | .erange s e => analyze_optExpr s + analyze_optExpr e
  | .estruct fs rest => analyze_exprList fs + analyze_optExpr rest
  | .eparen e => analyze_expression e
  | .egroup e => analyze_expression e
  | .eother => 0

/-- An optional sub-expression: `if let Some(expr) = ... { complexity +=
analyze_expression(expr) }` — absent means contribution 0. -/
def analyze_optExpr : Option Expr → Nat
  | none => 0
  | some e => analyze_expression e

/-- Accumulation over a list of sub-expressions (call arguments, array and
tuple elements, struct fields). -/
def analyze_exprList : List Expr → Nat
  | [] => 0
  | e :: es => analyze_expression e + analyze_exprList es

/-- The `for arm in &expr_match.arms` accumulation loop. -/
def analyze_armList : List Arm → Nat
  | [] => 0
  | a :: rest => analyze_match_arm a + analyze_armList rest

/-- Mirrors `analyze_match_arm`: 1 per arm, plus guard and body contributions. -/
def analyze_match_arm : Arm → Nat
  | .mk g body => 1 + analyze_optExpr g + analyze_expression body

/-- Mirrors `analyze_item`: a nested `Item::Fn` yields that function's own
cyclomatic complexity; other items yield 0. -/
def analyze_item : Item → Nat
  | .ifn f => calculate_cyclomatic_complexity f
  | .imod _ => 0
  | .iother => 0

end

mutual

/-- Mirrors `calculate_nesting_depth` in `src/analyzer/nesting_depth.rs`: walk the
body starting at depth 0. -/
def calculate_nesting_depth : ItemFn → Nat
  | .mk _ b => analyze_block_nesting b 0

/-- Mirrors `analyze_block_nesting`: `max_depth` starts at `current_depth` and is
maxed against every statement's depth, each analyzed at `current_depth`. -/
def analyze_block_nesting : Block → Nat → Nat
  | .mk stmts, d => analyze_stmtList_nesting stmts d

/-- The `for stmt in &block.stmts` maximum loop of `analyze_block_nesting`;
the empty list yields the starting accumulator `current_depth`. -/
def analyze_stmtList_nesting : List Stmt → Nat → Nat
  | [], d => d
  | s :: rest, d =>
      Nat.max (analyze_statement_nesting s d) (analyze_stmtList_nesting rest d)

/-- Mirrors `analyze_statement_nesting`: expressions and `let` initializers recurse
at the current depth; nested items and macros leave the depth unchanged. -/
def analyze_statement_nesting : Stmt → Nat → Nat
  | .sexpr e, d => analyze_expression_nesting e d
  | .slocal (some init), d => analyze_expression_nesting init d
  | .slocal none, d => d
  | .sitem _, d => d
  | .smac, d => d

/-- Mirrors `analyze_expression_nesting`: the Rust function's mutable
`max_depth` accumulator (initialized to `nested_depth` for the
nesting-increasing constructs and to `current_depth` for the others, then
maxed against each recursive call) is rendered as nested `Nat.max`; an
absent optional sub-expression is rendered as the accumulator's starting
value, which leaves the maximum unchanged exactly as skipping the `if let`
does in Rust. -/
def analyze_expression_nesting : Expr → Nat → Nat
  | .eif c t e, d =>
      Nat.max (Nat.max (d + 1) (analyze_expression_nesting c d))
        (Nat.max (analyze_block_nesting t (d + 1))
          (analyze_optExpr_nesting e (d + 1)))
  | .ematch s arms, d =>
      Nat.max (Nat.max (d + 1) (analyze_expression_nesting s d))
        (analyze_armList_nesting arms (d + 1))
  | .ewhile c b, d =>
      Nat.max (Nat.max (d + 1) (analyze_expression_nesting c d))
        (analyze_block_nesting b (d + 1))
  | .eforLoop i b, d =>
      Nat.max (Nat.max (d + 1) (analyze_expression_nesting i d))
        (analyze_block_nesting b (d + 1))
  | .eloop b, d => analyze_block_nesting b (d + 1)
  | .ebinary _ l r, d =>
      Nat.max (analyze_expression_nesting l d) (analyze_expression_nesting r d)
  | .etry e, d => analyze_expression_nesting e d
  | .ereturn e, d => analyze_optExpr_nesting e d
  | .ebreak e, d => analyze_optExpr_nesting e d
  | .econtinue, d => d
  | .eblock b, d => analyze_block_nesting b (d + 1)
  | .eunsafeBlk b, d => analyze_block_nesting b (d + 1)
  | .easync b, d => analyze_block_nesting b (d + 1)
  | .eclosure body, d => analyze_expression_nesting body (d + 1)
  | .ecall f args, d =>
      Nat.max (analyze_expression_nesting f d) (analyze_exprList_nesting args d)
  | .emethodCall r args, d =>
      Nat.max (analyze_expression_nesting r d) (analyze_exprList_nesting args d)
  | .earray es, d => analyze_exprList_nesting es d
  | .etuple es, d => analyze_exprList_nesting es d
  | .efield b, d => analyze_expression_nesting b d
  | .eindex e i, d =>
      Nat.max (analyze_expression_nesting e d) (analyze_expression_nesting i d)
  | .eassign l r, d =>
      Nat.max (analyze_expression_nesting l d) (analyze_expression_nesting r d)
  | .ereference e, d => analyze_expression_nesting e d
  | .eunary e, d => analyze_expression_nesting e d
  | .ecast e, d => analyze_expression_nesting e d
  | .erange s e, d =>
      Nat.max (analyze_optExpr_nesting s d) (analyze_optExpr_nesting e d)
  | .estruct fs rest, d =>
      Nat.max (analyze_exprList_nesting fs d) (analyze_optExpr_nesting rest d)
  | .eparen e, d => analyze_expression_nesting e d
  | .egroup e, d => analyze_expression_nesting e d
  | .eother, d => d

/-- An optional sub-expression at a given depth; absent yields the depth
itself (the accumulator is left unchanged). -/
def analyze_optExpr_nesting : Option Expr → Nat → Nat
  | none, d => d
  | some e, d => analyze_expression_nesting e d

/-- Maximum over a list of sub-expressions, starting from the current
depth. -/
def analyze_exprList_nesting : List Expr → Nat → Nat
  | [], d => d
  | e :: es, d =>
      Nat.max (analyze_expression_nesting e d) (analyze_exprList_nesting es d)

/-- The `for arm in &expr_match.arms` maximum loop: each arm's guard (when
present) and body are both analyzed at the incremented depth `nd`. -/
def analyze_armList_nesting : List Arm → Nat → Nat
  | [], nd => nd
  | a :: rest, nd =>
      Nat.max (analyze_arm_nesting a nd) (analyze_armList_nesting rest nd)

/-- One arm of the match loop: guard (when present) and body at depth
`nd`. -/
def analyze_arm_nesting : Arm → Nat → Nat
  | .mk g body, nd =>
      Nat.max (analyze_optExpr_nesting g nd) (analyze_expression_nesting body nd)

end

/-- The lookup loop shared by both `_from_source` entry points in
`src/analyzer/mod.rs`: scan the parsed file's top-level items in order and
return the first `Item::Fn` whose identifier matches. Non-function items
(modules, impls, ...) are skipped, never entered. -/
def find_top_fn : List Item → String → Option ItemFn
  | [], _ => none
  | .ifn f :: rest, n => if f.name = n then some f else find_top_fn rest n
  | .imod _ :: rest, n => find_top_fn rest n
  | .iother :: rest, n => find_top_fn rest n

/-- Mirrors `calculate_cyclomatic_complexity_from_source`: `parsed` is the outcome
of `syn::parse_file` (external); on parse failure or when no matching
top-level function exists, fall through to the default `1`. -/
def calculate_cyclomatic_complexity_from_source
    (parsed : Option (List Item)) (function_name : String) : Nat :=
  match parsed with
  | some items =>
      match find_top_fn items function_name with
      | some f => calculate_cyclomatic_complexity f
      | none => 1
  | none => 1

/-- Mirrors `calculate_nesting_depth_from_source`: same lookup, default `0`. -/
def calculate_nesting_depth_from_source
    (parsed : Option (List Item)) (function_name : String) : Nat :=
  match parsed with
  | some items =>
      match find_top_fn items function_name with
      | some f => calculate_nesting_depth f
      | none => 0
  | none => 0

/-- Mirrors `FunctionSpan` in `src/analyzer/function_extractor.rs`: a function's
name and the textual lines of its span. -/
structure FunctionSpan where
  name : String
  lines : List String

/-- Rust's `str::trim` at the character-list level: drop whitespace from
both ends. -/
def trim_chars (l : List Char) : List Char :=
  ((l.dropWhile Char.isWhitespace).reverse.dropWhile Char.isWhitespace).reverse

/-- Rust's `str::starts_with` at the character-list level. -/
def starts_with_chars : List Char → List Char → Bool
  | _, [] => true
  | [], _ :: _ => false
  | c :: cs, p :: ps => c == p && starts_with_chars cs ps

/-- The per-line branch of the `count_function_lines` loop: a line is
empty when its trimmed form is empty, a comment when the trimmed form
starts with `//` or `/*`, and code otherwise (`trim` and `starts_with` are
modelled on the line's character list). Returns the (code, comment, empty)
increments for the three counters. -/
def classify_line (line : String) : Nat × Nat × Nat :=
  let trimmed := trim_chars line.data
  if trimmed.isEmpty then (0, 0, 1)
  else if starts_with_chars trimmed ['/', '/'] ||
      starts_with_chars trimmed ['/', '*'] then (0, 1, 0)
  else (1, 0, 0)

/-- The `for line in &func.lines` loop of `count_function_lines`: the three
counters accumulated over the lines. -/
def count_lines : List String → Nat × Nat × Nat
  | [] => (0, 0, 0)
  | l :: ls =>
      let c := classify_line l
      let r := count_lines ls
      (c.1 + r.1, c.2.1 + r.2.1, c.2.2 + r.2.2)

/-- Mirrors `count_function_lines` in `src/analyzer/mod.rs`: returns
(total, code, comment, empty), with `total = func.lines.len()`. -/
def count_function_lines (func : FunctionSpan) : Nat × Nat × Nat × Nat :=
  let r := count_lines func.lines
  (func.lines.length, r.1, r.2.1, r.2.2)

/-- Mirrors `FunctionAnalysisResult` in `src/analyzer/mod.rs`. -/
structure FunctionAnalysisResult where
  name : String
  total : Nat
  code : Nat
  comment : Nat
  empty : Nat
  cyclomatic_complexity : Nat
  nesting_depth : Nat

/-- Mirrors `analyze_function_complete` in `src/analyzer/mod.rs`: combine the line
counts with the two by-name structural metrics into one record. `parsed`
is the outcome of re-parsing the source (external). -/
def analyze_function_complete
    (func : FunctionSpan) (parsed : Option (List Item)) :
    FunctionAnalysisResult :=
  let r := count_function_lines func
  { name := func.name
    total := r.1
    code := r.2.1
    comment := r.2.2.1
    empty := r.2.2.2
    cyclomatic_complexity :=
      calculate_cyclomatic_complexity_from_source parsed func.name
    nesting_depth := calculate_nesting_depth_from_source parsed func.name }

mutual

/-- Whether an item defines (anywhere inside it, at any depth) a function
named `n`. Used to state that a name is *not defined at all* in a parsed
source. -/
def item_defines_fn : Item → String → Bool
  | .ifn f, n => itemFn_defines_fn f n
  | .imod items, n => items_define_fn items n
  | .iother, _ => false

def itemFn_defines_fn : ItemFn → String → Bool
  | .mk nm b, n => (nm == n) || block_defines_fn b n

def items_define_fn : List Item → String → Bool
  | [], _ => false
  | i :: rest, n => item_defines_fn i n || items_define_fn rest n

def block_defines_fn : Block → String → Bool
  | .mk stmts, n => stmts_define_fn stmts n

def stmts_define_fn : List Stmt → String → Bool
  | [], _ => false
  | s :: rest, n => stmt_defines_fn s n || stmts_define_fn rest n

def stmt_defines_fn : Stmt → String → Bool
  | .sexpr e, n => expr_defines_fn e n
  | .slocal (some e), n => expr_defines_fn e n
  | .slocal none, _ => false
  | .sitem it, n => item_defines_fn it n
  | .smac, _ => false

def expr_defines_fn : Expr → String → Bool
  | .eif c t e, n =>
      expr_defines_fn c n || block_defines_fn t n || optExpr_defines_fn e n
  | .ematch s arms, n => expr_defines_fn s n || arms_define_fn arms n
  | .ewhile c b, n => expr_defines_fn c n || block_defines_fn b n
  | .eforLoop i b, n => expr_defines_fn i n || block_defines_fn b n
  | .eloop b, n => block_defines_fn b n
  | .ebinary _ l r, n => expr_defines_fn l n || expr_defines_fn r n
  | .etry e, n => expr_defines_fn e n
  | .ereturn e, n => optExpr_defines_fn e n
  | .ebreak e, n => optExpr_defines_fn e n
  | .econtinue, _ => false
  | .eblock b, n => block_defines_fn b n
  | .eunsafeBlk b, n => block_defines_fn b n
  | .easync b, n => block_defines_fn b n
  | .eclosure body, n => expr_defines_fn body n
  | .ecall f args, n => expr_defines_fn f n || exprs_define_fn args n
  | .emethodCall r args, n => expr_defines_fn r n || exprs_define_fn args n
  | .earray es, n => exprs_define_fn es n
  | .etuple es, n => exprs_define_fn es n
  | .efield b, n => expr_defines_fn b n
  | .eindex e i, n => expr_defines_fn e n || expr_defines_fn i n
  | .eassign l r, n => expr_defines_fn l n || expr_defines_fn r n
  | .ereference e, n => expr_defines_fn e n
  | .eunary e, n => expr_defines_fn e n
  | .ecast e, n => expr_defines_fn e n
  | .erange s e, n => optExpr_defines_fn s n || optExpr_defines_fn e n
  | .estruct fs rest, n => exprs_define_fn fs n || optExpr_defines_fn rest n
  | .eparen e, n => expr_defines_fn e n
  | .egroup e, n => expr_defines_fn e n
  | .eother, _ => false

def optExpr_defines_fn : Option Expr → String → Bool
  | none, _ => false
  | some e, n => expr_defines_fn e n

def exprs_define_fn : List Expr → String → Bool
  | [], _ => false
  | e :: es, n => expr_defines_fn e n || exprs_define_fn es n

def arms_define_fn : List Arm → String → Bool
  | [], _ => false
  | .mk g b :: rest, n =>
      optExpr_defines_fn g n || expr_defines_fn b n || arms_define_fn rest n

end

mutual

/-- Spec-side predicate, following the spec's words "function bodies with
no branching/looping/logical constructs": the expression contains no
conditional (`if`), no `match`, no `while`/`for`/`loop`, and no
short-circuit logical operator (`&&` / `||`), at any depth. All other
constructs (blocks, closures, returns, `?`, calls, ...) are permitted by
this wording. -/
def spec_no_branch_loop_logic_expr : Expr → Bool
  | .eif _ _ _ => false
  | .ematch _ _ => false
  | .ewhile _ _ => false
  | .eforLoop _ _ => false
  | .eloop _ => false
  | .ebinary op l r =>
      (match op with
        | .and => false
        | .or => false
        | .other => true)
      && spec_no_branch_loop_logic_expr l && spec_no_branch_loop_logic_expr r
  | .etry e => spec_no_branch_loop_logic_expr e
  | .ereturn e => spec_no_branch_loop_logic_optExpr e
  | .ebreak e => spec_no_branch_loop_logic_optExpr e
  | .econtinue => true
  | .eblock b => spec_no_branch_loop_logic_block b
  | .eunsafeBlk b => spec_no_branch_loop_logic_block b
  | .easync b => spec_no_branch_loop_logic_block b
  | .eclosure body => spec_no_branch_loop_logic_expr body
  | .ecall f args =>
      spec_no_branch_loop_logic_expr f && spec_no_branch_loop_logic_exprs args
  | .emethodCall r args =>
      spec_no_branch_loop_logic_expr r && spec_no_branch_loop_logic_exprs args
  | .earray es => spec_no_branch_loop_logic_exprs es
  | .etuple es => spec_no_branch_loop_logic_exprs es
  | .efield b => spec_no_branch_loop_logic_expr b
  | .eindex e i =>
      spec_no_branch_loop_logic_expr e && spec_no_branch_loop_logic_expr i
  | .eassign l r =>
      spec_no_branch_loop_logic_expr l && spec_no_branch_loop_logic_expr r
  | .ereference e => spec_no_branch_loop_logic_expr e
  | .eunary e => spec_no_branch_loop_logic_expr e
  | .ecast e => spec_no_branch_loop_logic_expr e
  | .erange s e =>
      spec_no_branch_loop_logic_optExpr s && spec_no_branch_loop_logic_optExpr e
  | .estruct fs rest =>
      spec_no_branch_loop_logic_exprs fs && spec_no_branch_loop_logic_optExpr rest
  | .eparen e => spec_no_branch_loop_logic_expr e
  | .egroup e => spec_no_branch_loop_logic_expr e
  | .eother => true

def spec_no_branch_loop_logic_optExpr : Option Expr → Bool
  | none => true
  | some e => spec_no_branch_loop_logic_expr e

def spec_no_branch_loop_logic_exprs : List Expr → Bool
  | [] => true
  | e :: es =>
      spec_no_branch_loop_logic_expr e && spec_no_branch_loop_logic_exprs es

def spec_no_branch_loop_logic_block : Block → Bool
  | .mk stmts => spec_no_branch_loop_logic_stmts stmts

def spec_no_branch_loop_logic_stmts : List Stmt → Bool
  | [] => true
  | s :: rest =>
      spec_no_branch_loop_logic_stmt s && spec_no_branch_loop_logic_stmts rest

def spec_no_branch_loop_logic_stmt : Stmt → Bool
  | .sexpr e => spec_no_branch_loop_logic_expr e
  | .slocal (some e) => spec_no_branch_loop_logic_expr e
  | .slocal none => true
  | .sitem _ => true
  | .smac => true

end

mutual

/-- An expression built only from constructs that contribute nothing to
cyclomatic complexity *and* never increase nesting depth: no decision
points (`if`, `match`, loops, `&&`/`||`, `?`, `return`, `break`,
`continue`), no scope boundaries (bare/unsafe/async blocks, closures), and
no nested function items. -/
def zero_metric_expr : Expr → Bool
  | .ebinary op l r =>
      (match op with
        | .and => false
        | .or => false
        | .other => true)
      && zero_metric_expr l && zero_metric_expr r
  | .ecall f args => zero_metric_expr f && zero_metric_exprs args
  | .emethodCall r args => zero_metric_expr r && zero_metric_exprs args
  | .earray es => zero_metric_exprs es
  | .etuple es => zero_metric_exprs es
  | .efield b => zero_metric_expr b
  | .eindex e i => zero_metric_expr e && zero_metric_expr i
  | .eassign l r => zero_metric_expr l && zero_metric_expr r
  | .ereference e => zero_metric_expr e
  | .eunary e => zero_metric_expr e
  | .ecast e => zero_metric_expr e
  | .erange s e => zero_metric_optExpr s && zero_metric_optExpr e
  | .estruct fs rest => zero_metric_exprs fs && zero_metric_optExpr rest
  | .eparen e => zero_metric_expr e
  | .egroup e => zero_metric_expr e
  | .eother => true
  | _ => false

def zero_metric_optExpr : Option Expr → Bool
  | none => true
  | some e => zero_metric_expr e

def zero_metric_exprs : List Expr → Bool
  | [] => true
  | e :: es => zero_metric_expr e && zero_metric_exprs es

def zero_metric_block : Block → Bool
  | .mk stmts => zero_metric_stmts stmts

def zero_metric_stmts : List Stmt → Bool
  | [] => true
  | s :: rest => zero_metric_stmt s && zero_metric_stmts rest

def zero_metric_stmt : Stmt → Bool
  | .sexpr e => zero_metric_expr e
  | .slocal (some e) => zero_metric_expr e
  | .slocal none => true
  | .sitem (.ifn _) => false
  | .sitem (.imod _) => true
  | .sitem .iother => true
  | .smac => true

end

/-- A depth probe: `expr_tower k` is `k` nested bare blocks around a leaf,
so its nesting value at depth `d` is exactly `d + k` (proved below). Used
to observe at which depth the nesting walker evaluates a sub-expression. -/
def expr_tower : Nat → Expr
  | 0 => .eother
  | k + 1 => .eblock (Block.mk [Stmt.sexpr (expr_tower k)])

/-! Helper lemmas. -/

/-- Absorption: a lower bound on the right operand absorbs into a nested
maximum. -/
theorem nat_max_absorb_left (a b x : Nat) (h : a ≤ x) :
    Nat.max (Nat.max a b) x = Nat.max b x := by
  simp only [Nat.max_def]
  repeat' split
  all_goals omega

/-- Complexity contributions of statements are summed, so they distribute
over list append. -/
theorem analyze_stmtList_append (xs ys : List Stmt) :
    analyze_stmtList (xs ++ ys) = analyze_stmtList xs + analyze_stmtList ys := by
  induction xs with
  | nil => simp [analyze_stmtList]
  | cons s rest ih => simp [analyze_stmtList, ih]; omega

/-- Every line is classified into exactly one of the three buckets. -/
theorem classify_line_cases (l : String) :
    classify_line l = (1, 0, 0) ∨ classify_line l = (0, 1, 0) ∨
      classify_line l = (0, 0, 1) := by
  unfold classify_line
  dsimp only []
  split
  · right; right; rfl
  · split
    · right; left; rfl
    · left; rfl

/-- The three per-line counters sum to the number of lines. -/
theorem count_lines_total (ls : List String) :
    (count_lines ls).1 + (count_lines ls).2.1 + (count_lines ls).2.2
      = ls.length := by
  induction ls with
  | nil => simp [count_lines]
  | cons l ls ih =>
      rcases classify_line_cases l with h | h | h <;>
        simp [count_lines, h] <;> omega

/-- Line counting is componentwise additive over append: each line's
classification is independent of the surrounding lines. -/
theorem count_lines_append (xs ys : List String) :
    count_lines (xs ++ ys) =
      ((count_lines xs).1 + (count_lines ys).1,
       (count_lines xs).2.1 + (count_lines ys).2.1,
       (count_lines xs).2.2 + (count_lines ys).2.2) := by
  induction xs with
  | nil => simp [count_lines]
  | cons l ls ih => simp [count_lines, ih]; omega

/-- When no function named `n` is defined anywhere among the items, the
top-level scan in particular finds nothing. -/
theorem items_define_fn_false_find_none (items : List Item) (n : String)
    (h : items_define_fn items n = false) : find_top_fn items n = none := by
  induction items with
  | nil => simp [find_top_fn]
  | cons i rest ih =>
      cases i with
      | ifn f =>
          cases f with
          | mk nm b =>
              simp [items_define_fn, item_defines_fn, itemFn_defines_fn,
                Bool.or_eq_false_iff] at h
              simp [find_top_fn, ItemFn.name, h.1.1]
              exact ih h.2
      | imod sub =>
          simp [items_define_fn, Bool.or_eq_false_iff] at h
          simp [find_top_fn]
          exact ih h.2
      | iother =>
          simp [items_define_fn, Bool.or_eq_false_iff] at h
          simp [find_top_fn]
          exact ih h.2

/-- When no top-level item is a function named `n`, the scan finds
nothing — whatever may be nested deeper inside the items. -/
theorem top_level_unnamed_find_none (items : List Item) (n : String)
    (h : ∀ f, Item.ifn f ∈ items → f.name ≠ n) :
    find_top_fn items n = none := by
  induction items with
  | nil => simp [find_top_fn]
  | cons i rest ih =>
      cases i with
      | ifn f =>
          have hne : f.name ≠ n := h f (by simp)
          simp [find_top_fn, hne]
          exact ih fun g hg => h g (by simp [hg])
      | imod sub =>
          simp [find_top_fn]
          exact ih fun g hg => h g (by simp [hg])
      | iother =>
          simp [find_top_fn]
          exact ih fun g hg => h g (by simp [hg])

mutual

/-- The nesting walker never reports less than the depth it was entered
at (expressions). -/
theorem analyze_expression_nesting_ge : (e : Expr) → (d : Nat) →
    d ≤ analyze_expression_nesting e d
  | .eif c t e, d => by simp [analyze_expression_nesting]
  | .ematch s arms, d => by simp [analyze_expression_nesting]
  | .ewhile c b, d => by simp [analyze_expression_nesting]
  | .eforLoop i b, d => by simp [analyze_expression_nesting]
  | .eloop b, d => by
      have h := analyze_block_nesting_ge b (d + 1)
      simp only [analyze_expression_nesting]
      omega
  | .ebinary op l r, d => by
      have h := analyze_expression_nesting_ge l d
      simp [analyze_expression_nesting, h]
  | .etry e, d => by
      have h := analyze_expression_nesting_ge e d
      simp [analyze_expression_nesting, h]
  | .ereturn e, d => by
      have h := analyze_optExpr_nesting_ge e d
      simp [analyze_expression_nesting, h]
  | .ebreak e, d => by
      have h := analyze_optExpr_nesting_ge e d
      simp [analyze_expression_nesting, h]
  | .econtinue, d => by simp [analyze_expression_nesting]
  | .eblock b, d => by
      have h := analyze_block_nesting_ge b (d + 1)
      simp only [analyze_expression_nesting]
      omega
  | .eunsafeBlk b, d => by
      have h := analyze_block_nesting_ge b (d + 1)
      simp only [analyze_expression_nesting]
      omega
  | .easync b, d => by
      have h := analyze_block_nesting_ge b (d + 1)
      simp only [analyze_expression_nesting]
      omega
  | .eclosure body, d => by
      have h := analyze_expression_nesting_ge body (d + 1)
      simp only [analyze_expression_nesting]
      omega
  | .ecall f args, d => by
      have h := analyze_expression_nesting_ge f d
      simp [analyze_expression_nesting, h]
  | .emethodCall r args, d => by
      have h := analyze_expression_nesting_ge r d
      simp [analyze_expression_nesting, h]
  | .earray es, d => by
      have h := analyze_exprList_nesting_ge es d
      simp [analyze_expression_nesting, h]
  | .etuple es, d => by
      have h := analyze_exprList_nesting_ge es d
      simp [analyze_expression_nesting, h]
  | .efield b, d => by
      have h := analyze_expression_nesting_ge b d
      simp [analyze_expression_nesting, h]
  | .eindex e i, d => by
      have h := analyze_expression_nesting_ge e d
      simp [analyze_expression_nesting, h]
  | .eassign l r, d => by
      have h := analyze_expression_nesting_ge l d
      simp [analyze_expression_nesting, h]
  | .ereference e, d => by
      have h := analyze_expression_nesting_ge e d
      simp [analyze_expression_nesting, h]
  | .eunary e, d => by
      have h := analyze_expression_nesting_ge e d
      simp [analyze_expression_nesting, h]
  | .ecast e, d => by
      have h := analyze_expression_nesting_ge e d
      simp [analyze_expression_nesting, h]
  | .erange s e, d => by
      have h := analyze_optExpr_nesting_ge s d
      simp [analyze_expression_nesting, h]
  | .estruct fs rest, d => by
      have h := analyze_exprList_nesting_ge fs d
      simp [analyze_expression_nesting, h]
  | .eparen e, d => by
      have h := analyze_expression_nesting_ge e d
      simp [analyze_expression_nesting, h]
  | .egroup e, d => by
      have h := analyze_expression_nesting_ge e d
      simp [analyze_expression_nesting, h]
  | .eother, d => by simp [analyze_expression_nesting]

/-- The nesting walker never reports less than the entry depth (optional
expressions). -/
theorem analyze_optExpr_nesting_ge : (e : Option Expr) → (d : Nat) →
    d ≤ analyze_optExpr_nesting e d
  | none, d => by simp [analyze_optExpr_nesting]
  | some e, d => by
      have h := analyze_expression_nesting_ge e d
      simp [analyze_optExpr_nesting, h]

/-- The nesting walker never reports less than the entry depth (expression
lists). -/
theorem analyze_exprList_nesting_ge : (es : List Expr) → (d : Nat) →
    d ≤ analyze_exprList_nesting es d
  | [], d => by simp [analyze_exprList_nesting]
  | e :: es, d => by
      have h := analyze_exprList_nesting_ge es d
      simp [analyze_exprList_nesting, h]

/-- The nesting walker never reports less than the entry depth (blocks). -/
theorem analyze_block_nesting_ge : (b : Block) → (d : Nat) →
    d ≤ analyze_block_nesting b d
  | .mk stmts, d => by
      have h := analyze_stmtList_nesting_ge stmts d
      simp only [analyze_block_nesting]
      omega

/-- The nesting walker never reports less than the entry depth (statement
lists). -/
theorem analyze_stmtList_nesting_ge : (ss : List Stmt) → (d : Nat) →
    d ≤ analyze_stmtList_nesting ss d
  | [], d => by simp [analyze_stmtList_nesting]
  | s :: ss, d => by
      have h := analyze_stmtList_nesting_ge ss d
      simp [analyze_stmtList_nesting, h]

end

/-- The arm loop never reports less than the incremented depth it is
given. -/
theorem analyze_armList_nesting_ge (arms : List Arm) (nd : Nat) :
    nd ≤ analyze_armList_nesting arms nd := by
  induction arms with
  | nil => simp [analyze_armList_nesting]
  | cons a rest ih => simp [analyze_armList_nesting, ih]

/-- The depth probe reports its entry depth plus its own height. -/
theorem expr_tower_nesting (k d : Nat) :
    analyze_expression_nesting (expr_tower k) d = d + k := by
  induction k generalizing d with
  | zero => simp [expr_tower, analyze_expression_nesting]
  | succ k ih =>
      simp [expr_tower, analyze_expression_nesting, analyze_block_nesting,
        analyze_stmtList_nesting, analyze_statement_nesting, ih]
      omega

mutual

/-- Soundness of `zero_metric_expr`: such an expression contributes 0 to
complexity and leaves the nesting depth unchanged. -/
theorem zero_metric_expr_sound : (e : Expr) → zero_metric_expr e = true →
    analyze_expression e = 0 ∧ ∀ d, analyze_expression_nesting e d = d
  | .ebinary .other l r, h => by
      simp [zero_metric_expr, Bool.and_eq_true] at h
      obtain ⟨hl1, hl2⟩ := zero_metric_expr_sound l h.1
      obtain ⟨hr1, hr2⟩ := zero_metric_expr_sound r h.2
      exact ⟨by simp [analyze_expression, hl1, hr1],
        fun d => by simp [analyze_expression_nesting, hl2, hr2]⟩
  | .ecall f args, h => by
      simp [zero_metric_expr, Bool.and_eq_true] at h
      obtain ⟨hf1, hf2⟩ := zero_metric_expr_sound f h.1
      obtain ⟨ha1, ha2⟩ := zero_metric_exprs_sound args h.2
      exact ⟨by simp [analyze_expression, hf1, ha1],
        fun d => by simp [analyze_expression_nesting, hf2, ha2]⟩
  | .emethodCall r args, h => by
      simp [zero_metric_expr, Bool.and_eq_true] at h
      obtain ⟨hf1, hf2⟩ := zero_metric_expr_sound r h.1
      obtain ⟨ha1, ha2⟩ := zero_metric_exprs_sound args h.2
      exact ⟨by simp [analyze_expression, hf1, ha1],
        fun d => by simp [analyze_expression_nesting, hf2, ha2]⟩
  | .earray es, h => by
      simp [zero_metric_expr] at h
      obtain ⟨ha1, ha2⟩ := zero_metric_exprs_sound es h
      exact ⟨by simp [analyze_expression, ha1],
        fun d => by simp [analyze_expression_nesting, ha2]⟩
  | .etuple es, h => by
      simp [zero_metric_expr] at h
      obtain ⟨ha1, ha2⟩ := zero_metric_exprs_sound es h
      exact ⟨by simp [analyze_expression, ha1],
        fun d => by simp [analyze_expression_nesting, ha2]⟩
  | .efield b, h => by
      simp [zero_metric_expr] at h
      obtain ⟨h1, h2⟩ := zero_metric_expr_sound b h
      exact ⟨by simp [analyze_expression, h1],
        fun d => by simp [analyze_expression_nesting, h2]⟩
  | .eindex e i, h => by
      simp [zero_metric_expr, Bool.and_eq_true] at h
      obtain ⟨h1, h2⟩ := zero_metric_expr_sound e h.1
      obtain ⟨h3, h4⟩ := zero_metric_expr_sound i h.2
      exact ⟨by simp [analyze_expression, h1, h3],
        fun d => by simp [analyze_expression_nesting, h2, h4]⟩
  | .eassign l r, h => by
      simp [zero_metric_expr, Bool.and_eq_true] at h
      obtain ⟨h1, h2⟩ := zero_metric_expr_sound l h.1
      obtain ⟨h3, h4⟩ := zero_metric_expr_sound r h.2
      exact ⟨by simp [analyze_expression, h1, h3],
        fun d => by simp [analyze_expression_nesting, h2, h4]⟩
  | .ereference e, h => by
      simp [zero_metric_expr] at h
      obtain ⟨h1, h2⟩ := zero_metric_expr_sound e h
      exact ⟨by simp [analyze_expression, h1],
        fun d => by simp [analyze_expression_nesting, h2]⟩
  | .eunary e, h => by
      simp [zero_metric_expr] at h
      obtain ⟨h1, h2⟩ := zero_metric_expr_sound e h
      exact ⟨by simp [analyze_expression, h1],
        fun d => by simp [analyze_expression_nesting, h2]⟩
  | .ecast e, h => by
      simp [zero_metric_expr] at h
      obtain ⟨h1, h2⟩ := zero_metric_expr_sound e h
      exact ⟨by simp [analyze_expression, h1],
        fun d => by simp [analyze_expression_nesting, h2]⟩
  | .erange s e, h => by
      simp [zero_metric_expr, Bool.and_eq_true] at h
      obtain ⟨h1, h2⟩ := zero_metric_optExpr_sound s h.1
      obtain ⟨h3, h4⟩ := zero_metric_optExpr_sound e h.2
      exact ⟨by simp [analyze_expression, h1, h3],
        fun d => by simp [analyze_expression_nesting, h2, h4]⟩
  | .estruct fs rest, h => by
      simp [zero_metric_expr, Bool.and_eq_true] at h
      obtain ⟨h1, h2⟩ := zero_metric_exprs_sound fs h.1
      obtain ⟨h3, h4⟩ := zero_metric_optExpr_sound rest h.2
      exact ⟨by simp [analyze_expression, h1, h3],
        fun d => by simp [analyze_expression_nesting, h2, h4]⟩
  | .eparen e, h => by
      simp [zero_metric_expr] at h
      obtain ⟨h1, h2⟩ := zero_metric_expr_sound e h
      exact ⟨by simp [analyze_expression, h1],
        fun d => by simp [analyze_expression_nesting, h2]⟩
  | .egroup e, h => by
      simp [zero_metric_expr] at h
      obtain ⟨h1, h2⟩ := zero_metric_expr_sound e h
      exact ⟨by simp [analyze_expression, h1],
        fun d => by simp [analyze_expression_nesting, h2]⟩
  | .eother, _ =>
      ⟨by simp [analyze_expression],
        fun d => by simp [analyze_expression_nesting]⟩
  | .ebinary .and l r, h => by simp [zero_metric_expr] at h
  | .ebinary .or l r, h => by simp [zero_metric_expr] at h
  | .eif c t e, h => by simp [zero_metric_expr] at h
  | .ematch s arms, h => by simp [zero_metric_expr] at h
  | .ewhile c b, h => by simp [zero_metric_expr] at h
  | .eforLoop i b, h => by simp [zero_metric_expr] at h
  | .eloop b, h => by simp [zero_metric_expr] at h
  | .etry e, h => by simp [zero_metric_expr] at h
  | .ereturn e, h => by simp [zero_metric_expr] at h
  | .ebreak e, h => by simp [zero_metric_expr] at h
  | .econtinue, h => by simp [zero_metric_expr] at h
  | .eblock b, h => by simp [zero_metric_expr] at h
  | .eunsafeBlk b, h => by simp [zero_metric_expr] at h
  | .easync b, h => by simp [zero_metric_expr] at h
  | .eclosure body, h => by simp [zero_metric_expr] at h

/-- Soundness of `zero_metric_optExpr`. -/
theorem zero_metric_optExpr_sound :
    (e : Option Expr) → zero_metric_optExpr e = true →
    analyze_optExpr e = 0 ∧ ∀ d, analyze_optExpr_nesting e d = d
  | none, _ =>
      ⟨by simp [analyze_optExpr], fun d => by simp [analyze_optExpr_nesting]⟩
  | some e, h => by
      simp [zero_metric_optExpr] at h
      obtain ⟨h1, h2⟩ := zero_metric_expr_sound e h
      exact ⟨by simp [analyze_optExpr, h1],
        fun d => by simp [analyze_optExpr_nesting, h2]⟩

/-- Soundness of `zero_metric_exprs`. -/
theorem zero_metric_exprs_sound :
    (es : List Expr) → zero_metric_exprs es = true →
    analyze_exprList es = 0 ∧ ∀ d, analyze_exprList_nesting es d = d
  | [], _ =>
      ⟨by simp [analyze_exprList], fun d => by simp [analyze_exprList_nesting]⟩
  | e :: es, h => by
      simp [zero_metric_exprs, Bool.and_eq_true] at h
      obtain ⟨h1, h2⟩ := zero_metric_expr_sound e h.1
      obtain ⟨h3, h4⟩ := zero_metric_exprs_sound es h.2
      exact ⟨by simp [analyze_exprList, h1, h3],
        fun d => by simp [analyze_exprList_nesting, h2, h4]⟩

/-- Soundness of `zero_metric_block`. -/
theorem zero_metric_block_sound : (b : Block) → zero_metric_block b = true →
    analyze_block b = 0 ∧ ∀ d, analyze_block_nesting b d = d
  | .mk stmts, h => by
      simp [zero_metric_block] at h
      obtain ⟨h1, h2⟩ := zero_metric_stmts_sound stmts h
      exact ⟨by simp [analyze_block, h1],
        fun d => by simp [analyze_block_nesting, h2]⟩

/-- Soundness of `zero_metric_stmts`. -/
theorem zero_metric_stmts_sound :
    (ss : List Stmt) → zero_metric_stmts ss = true →
    analyze_stmtList ss = 0 ∧ ∀ d, analyze_stmtList_nesting ss d = d
  | [], _ =>
      ⟨by simp [analyze_stmtList], fun d => by simp [analyze_stmtList_nesting]⟩
  | s :: ss, h => by
      simp [zero_metric_stmts, Bool.and_eq_true] at h
      obtain ⟨h1, h2⟩ := zero_metric_stmt_sound s h.1
      obtain ⟨h3, h4⟩ := zero_metric_stmts_sound ss h.2
      exact ⟨by simp [analyze_stmtList, h1, h3],
        fun d => by simp [analyze_stmtList_nesting, h2, h4]⟩

/-- Soundness of `zero_metric_stmt`. -/
theorem zero_metric_stmt_sound : (s : Stmt) → zero_metric_stmt s = true →
    analyze_statement s = 0 ∧ ∀ d, analyze_statement_nesting s d = d
  | .sexpr e, h => by
      simp [zero_metric_stmt] at h
      obtain ⟨h1, h2⟩ := zero_metric_expr_sound e h
      exact ⟨by simp [analyze_statement, h1],
        fun d => by simp [analyze_statement_nesting, h2]⟩
  | .slocal (some e), h => by
      simp [zero_metric_stmt] at h
      obtain ⟨h1, h2⟩ := zero_metric_expr_sound e h
      exact ⟨by simp [analyze_statement, h1],
        fun d => by simp [analyze_statement_nesting, h2]⟩
  | .slocal none, _ =>
      ⟨by simp [analyze_statement], fun d => by simp [analyze_statement_nesting]⟩
  | .sitem (.ifn f), h => by simp [zero_metric_stmt] at h
  | .sitem (.imod sub), _ =>
      ⟨by simp [analyze_statement, analyze_item],
        fun d => by simp [analyze_statement_nesting]⟩
  | .sitem .iother, _ =>
      ⟨by simp [analyze_statement, analyze_item],
        fun d => by simp [analyze_statement_nesting]⟩
  | .smac, _ =>
      ⟨by simp [analyze_statement], fun d => by simp [analyze_statement_nesting]⟩

end

/-! Claim theorems. -/

/-- Claim C1, counterexample: the claim says the enclosing function's
score is the same as if a nested function item were absent, but for the
body consisting solely of the nested item `fn inner() {}` the enclosing
score is 2, while the empty body scores 1 — the two differ. -/
theorem c1_counterexample :
    calculate_cyclomatic_complexity
        (ItemFn.mk "outer"
          (Block.mk [Stmt.sitem (Item.ifn (ItemFn.mk "inner" (Block.mk [])))])) ≠
      calculate_cyclomatic_complexity (ItemFn.mk "outer" (Block.mk [])) := by
  decide

/-- Claim C1, amended: for every function body that contains a nested
function item as a statement, the Complexity Calculator computes the
nested function's own complexity (with its independent baseline of 1) and
folds that value into the enclosing function's complexity score: the
enclosing score equals the score with the nested item removed plus the
nested function's own complexity. -/
theorem c1_amended (name : String) (pre post : List Stmt) (f : ItemFn) :
    calculate_cyclomatic_complexity
        (ItemFn.mk name (Block.mk (pre ++ Stmt.sitem (Item.ifn f) :: post)))
      = calculate_cyclomatic_complexity (ItemFn.mk name (Block.mk (pre ++ post)))
        + calculate_cyclomatic_complexity f := by
  simp [calculate_cyclomatic_complexity, analyze_block, analyze_stmtList_append,
    analyze_stmtList, analyze_statement, analyze_item]
  omega

/-- Claim C2: for a function whose body consists of a closure containing a
single `if` (condition and then-branch free of nesting-increasing or
decision constructs, expressed by the zero-contribution hypotheses),
`calculate_nesting_depth` returns 2 (closure boundary plus `if`) and
`calculate_cyclomatic_complexity` returns 2 (base 1 plus 1 for the `if`;
the closure boundary contributes nothing to complexity). -/
theorem c2_closure_if (name : String) (c : Expr) (t : Block)
    (hc : analyze_expression c = 0) (ht : analyze_block t = 0)
    (hcn : ∀ d, analyze_expression_nesting c d = d)
    (htn : ∀ d, analyze_block_nesting t d = d) :
    calculate_nesting_depth
        (ItemFn.mk name
          (Block.mk [Stmt.sexpr (Expr.eclosure (Expr.eif c t none))])) = 2
    ∧ calculate_cyclomatic_complexity
        (ItemFn.mk name
          (Block.mk [Stmt.sexpr (Expr.eclosure (Expr.eif c t none))])) = 2 := by
  constructor
  · simp [calculate_nesting_depth, analyze_block_nesting,
      analyze_stmtList_nesting, analyze_statement_nesting,
      analyze_expression_nesting, analyze_optExpr_nesting, hcn, htn]
  · simp [calculate_cyclomatic_complexity, analyze_block, analyze_stmtList,
      analyze_statement, analyze_expression, analyze_optExpr, hc, ht]

/-- Witness for C2: the closure over `if` with a leaf condition and an
empty then-branch. -/
theorem c2_closure_if_witness :
    calculate_nesting_depth
        (ItemFn.mk "f"
          (Block.mk [Stmt.sexpr
            (Expr.eclosure (Expr.eif Expr.eother (Block.mk []) none))])) = 2
    ∧ calculate_cyclomatic_complexity
        (ItemFn.mk "f"
          (Block.mk [Stmt.sexpr
            (Expr.eclosure (Expr.eif Expr.eother (Block.mk []) none))])) = 2 :=
  c2_closure_if "f" Expr.eother (Block.mk []) (by decide) (by decide)
    (fun d => by simp [analyze_expression_nesting])
    (fun d => by simp [analyze_block_nesting, analyze_stmtList_nesting])

/-- Claim C3: in the Nesting Calculator the condition of an `if`, the
condition of a `while`, the iterable of a `for` and the scrutinee of a
`match` are all evaluated at the current (unincremented) depth `d` — the
overall result is exactly the maximum of that sub-expression's value at
`d` and the body/arms evaluated at `d + 1` — while a match arm's guard and
body are both evaluated at `d + 1`: a probe of intrinsic height `k` placed
in a guard or an arm body yields `d + 1 + k`, one level deeper than the
same probe placed in a condition/scrutinee position (which yields
`max (d + 1) (d + k)`). -/
theorem c3_condition_current_guard_incremented (c s i : Expr) (t b : Block)
    (e : Option Expr) (arms : List Arm) (d k : Nat) :
    (analyze_expression_nesting (.eif c t e) d
        = Nat.max (analyze_expression_nesting c d)
            (Nat.max (analyze_block_nesting t (d + 1))
              (analyze_optExpr_nesting e (d + 1))))
    ∧ (analyze_expression_nesting (.ewhile c b) d
        = Nat.max (analyze_expression_nesting c d)
            (analyze_block_nesting b (d + 1)))
    ∧ (analyze_expression_nesting (.eforLoop i b) d
        = Nat.max (analyze_expression_nesting i d)
            (analyze_block_nesting b (d + 1)))
    ∧ (analyze_expression_nesting (.ematch s arms) d
        = Nat.max (analyze_expression_nesting s d)
            (analyze_armList_nesting arms (d + 1)))
    ∧ (analyze_expression_nesting
        (.ematch .eother [Arm.mk (some (expr_tower k)) .eother]) d
        = d + 1 + k)
    ∧ (analyze_expression_nesting
        (.ematch .eother [Arm.mk none (expr_tower k)]) d
        = d + 1 + k)
    ∧ (analyze_expression_nesting (.eif (expr_tower k) (Block.mk []) none) d
        = Nat.max (d + 1) (d + k)) := by
  refine ⟨?_, ?_, ?_, ?_, ?_, ?_, ?_⟩
  · have ht := analyze_block_nesting_ge t (d + 1)
    simp only [analyze_expression_nesting]
    exact nat_max_absorb_left _ _ _
      (le_trans ht (Nat.le_max_left _ _))
  · have hb := analyze_block_nesting_ge b (d + 1)
    simp only [analyze_expression_nesting]
    exact nat_max_absorb_left _ _ _ hb
  · have hb := analyze_block_nesting_ge b (d + 1)
    simp only [analyze_expression_nesting]
    exact nat_max_absorb_left _ _ _ hb
  · have ha := analyze_armList_nesting_ge arms (d + 1)
    simp only [analyze_expression_nesting]
    exact nat_max_absorb_left _ _ _ ha
  · simp [analyze_expression_nesting, analyze_armList_nesting,
      analyze_arm_nesting, analyze_optExpr_nesting, expr_tower_nesting]
  · simp [analyze_expression_nesting, analyze_armList_nesting,
      analyze_arm_nesting, analyze_optExpr_nesting, expr_tower_nesting]
  · simp [analyze_expression_nesting, analyze_block_nesting,
      analyze_stmtList_nesting, analyze_optExpr_nesting, expr_tower_nesting]

/-- Claim C4: for every parse outcome in which the requested function name
is not defined anywhere (including a failed parse), the by-name entry
points return complexity 1 and nesting depth 0 as lenient defaults. -/
theorem c4_lenient_defaults (parsed : Option (List Item)) (n : String)
    (h : parsed = none ∨
      ∃ items, parsed = some items ∧ items_define_fn items n = false) :
    calculate_cyclomatic_complexity_from_source parsed n = 1
    ∧ calculate_nesting_depth_from_source parsed n = 0 := by
  rcases h with h | ⟨items, h, hitems⟩
  · subst h
    constructor <;> rfl
  · subst h
    have hf := items_define_fn_false_find_none items n hitems
    constructor <;>
      simp [calculate_cyclomatic_complexity_from_source,
        calculate_nesting_depth_from_source, hf]

/-- Witness for C4: looking up "f" in a file that only defines "g". -/
theorem c4_lenient_defaults_witness :
    calculate_cyclomatic_complexity_from_source
        (some [Item.ifn (ItemFn.mk "g" (Block.mk []))]) "f" = 1
    ∧ calculate_nesting_depth_from_source
        (some [Item.ifn (ItemFn.mk "g" (Block.mk []))]) "f" = 0 :=
  c4_lenient_defaults (some [Item.ifn (ItemFn.mk "g" (Block.mk []))]) "f"
    (Or.inr ⟨[Item.ifn (ItemFn.mk "g" (Block.mk []))], rfl, by decide⟩)

/-- Claim C5: a match expression's complexity contribution is 1 (base)
plus the scrutinee's recursive contribution plus, summed over every arm,
1 plus the guard's contribution (0 when absent) plus the arm body's
contribution — every arm adds exactly one unit, guarded or not. -/
theorem c5_match_complexity (s : Expr) (arms : List Arm) :
    analyze_expression (.ematch s arms) =
      1 + analyze_expression s +
        (arms.map fun a =>
          1 + analyze_optExpr a.guard + analyze_expression a.body).sum := by
  have h : ∀ l : List Arm,
      analyze_armList l =
        (l.map fun a =>
          1 + analyze_optExpr a.guard + analyze_expression a.body).sum := by
    intro l
    induction l with
    | nil => simp [analyze_armList]
    | cons a rest ih =>
        cases a with
        | mk g b =>
            simp [analyze_armList, analyze_match_arm, Arm.guard, Arm.body, ih]
  simp [analyze_expression, h]

/-- Claim C6: for every function span the line classifier's result
satisfies total = code + comment + empty (the counts are naturals, hence
non-negative), the aggregated result record satisfies the same invariant,
and the span consisting of the four lines of a small function with one
comment line and one blank line yields total 4, code 2, comment 1,
empty 1. -/
theorem c6_line_count_invariant :
    (∀ func : FunctionSpan,
      (count_function_lines func).1 =
        (count_function_lines func).2.1 + (count_function_lines func).2.2.1 +
          (count_function_lines func).2.2.2)
    ∧ (∀ (func : FunctionSpan) (parsed : Option (List Item)),
        (analyze_function_complete func parsed).total =
          (analyze_function_complete func parsed).code +
            (analyze_function_complete func parsed).comment +
            (analyze_function_complete func parsed).empty)
    ∧ count_function_lines ⟨"f", ["fn f() \x7b", "// c", "", "\x7d"]⟩
        = (4, 2, 1, 1) := by
  refine ⟨?_, ?_, by decide⟩
  · intro func
    have h := count_lines_total func.lines
    simp [count_function_lines]
    omega
  · intro func parsed
    have h := count_lines_total func.lines
    simp [analyze_function_complete, count_function_lines]
    omega

/-- Claim C7: a short-circuit logical operator contributes exactly 1 unit
of complexity plus its operands' contributions, any other binary operator
contributes 0 plus its operands' contributions, and consequently the
condition `a AND b OR c` contributes 2 units, so an `if` over it scores
3 in total contribution. -/
theorem c7_short_circuit (op : BinOp) (l r : Expr) :
    (analyze_expression (.ebinary op l r) =
        (if op = .and ∨ op = .or then 1 else 0) +
          analyze_expression l + analyze_expression r)
    ∧ analyze_expression
        (.ebinary .or (.ebinary .and .eother .eother) .eother) = 2
    ∧ analyze_expression
        (.eif (.ebinary .or (.ebinary .and .eother .eother) .eother)
          (Block.mk []) none) = 3 := by
  refine ⟨?_, by decide, by decide⟩
  cases op <;> simp [analyze_expression]

/-- Claim C8, counterexample: the body consisting of a bare block around a
bare `return` contains no branching, looping or logical construct in the
claim's sense, yet its complexity is 2 (not 1) and its nesting depth is 1
(not 0). -/
theorem c8_counterexample :
    spec_no_branch_loop_logic_block
        (Block.mk [Stmt.sexpr
          (Expr.eblock (Block.mk [Stmt.sexpr (Expr.ereturn none)]))]) = true
    ∧ calculate_cyclomatic_complexity
        (ItemFn.mk "f"
          (Block.mk [Stmt.sexpr
            (Expr.eblock (Block.mk [Stmt.sexpr (Expr.ereturn none)]))])) = 2
    ∧ calculate_nesting_depth
        (ItemFn.mk "f"
          (Block.mk [Stmt.sexpr
            (Expr.eblock (Block.mk [Stmt.sexpr (Expr.ereturn none)]))])) = 1 := by
  decide

/-- Claim C8, amended: the Complexity Calculator always returns at least
1; an empty body returns exactly 1; and every body built solely from
constructs that neither contribute complexity nor increase nesting (no
branching, looping or logical operators, and also no early exits, try
operators, scope-introducing blocks, closures or nested function items)
has complexity exactly 1 and nesting depth exactly 0. -/
theorem c8_amended :
    (∀ f : ItemFn, 1 ≤ calculate_cyclomatic_complexity f)
    ∧ (∀ name : String,
        calculate_cyclomatic_complexity (ItemFn.mk name (Block.mk [])) = 1
        ∧ calculate_nesting_depth (ItemFn.mk name (Block.mk [])) = 0)
    ∧ (∀ (name : String) (b : Block), zero_metric_block b = true →
        calculate_cyclomatic_complexity (ItemFn.mk name b) = 1
        ∧ calculate_nesting_depth (ItemFn.mk name b) = 0) := by
  refine ⟨?_, ?_, ?_⟩
  · intro f
    cases f with
    | mk name b => simp [calculate_cyclomatic_complexity]
  · intro name
    exact ⟨by simp [calculate_cyclomatic_complexity, analyze_block,
        analyze_stmtList],
      by simp [calculate_nesting_depth, analyze_block_nesting,
        analyze_stmtList_nesting]⟩
  · intro name b hb
    obtain ⟨h1, h2⟩ := zero_metric_block_sound b hb
    exact ⟨by simp [calculate_cyclomatic_complexity, h1],
      by simp [calculate_nesting_depth, h2]⟩

/-- Witness for C8 (amended): a body that is a single plain call
statement has complexity 1 and nesting 0. -/
theorem c8_amended_witness :
    calculate_cyclomatic_complexity
        (ItemFn.mk "f"
          (Block.mk [Stmt.sexpr (Expr.ecall Expr.eother [Expr.eother])])) = 1
    ∧ calculate_nesting_depth
        (ItemFn.mk "f"
          (Block.mk [Stmt.sexpr (Expr.ecall Expr.eother [Expr.eother])])) = 0 :=
  c8_amended.2.2 "f"
    (Block.mk [Stmt.sexpr (Expr.ecall Expr.eother [Expr.eother])]) (by decide)

/-- Claim C9: the by-name lookups scan only top-level items — whenever no
top-level item is a function of the requested name, even though the parse
succeeded and the name is defined somewhere deeper (inside a module or
inside another function's body), they return the lenient defaults 1
and 0. -/
theorem c9_top_level_scan_only (items : List Item) (n : String)
    (htop : ∀ f, Item.ifn f ∈ items → f.name ≠ n)
    (hdeep : items_define_fn items n = true) :
    calculate_cyclomatic_complexity_from_source (some items) n = 1
    ∧ calculate_nesting_depth_from_source (some items) n = 0 := by
  have hf := top_level_unnamed_find_none items n htop
  constructor <;>
    simp [calculate_cyclomatic_complexity_from_source,
      calculate_nesting_depth_from_source, hf]

/-- Witness for C9: the source defines "f" only inside a module, and the
lookup of "f" still returns the defaults. -/
theorem c9_top_level_scan_only_witness :
    calculate_cyclomatic_complexity_from_source
        (some [Item.imod [Item.ifn (ItemFn.mk "f" (Block.mk []))]]) "f" = 1
    ∧ calculate_nesting_depth_from_source
        (some [Item.imod [Item.ifn (ItemFn.mk "f" (Block.mk []))]]) "f" = 0 :=
  c9_top_level_scan_only [Item.imod [Item.ifn (ItemFn.mk "f" (Block.mk []))]]
    "f" (by intro f hf; simp at hf) (by decide)

/-- Claim C10: line classification has no cross-line state (counting is
componentwise additive over concatenation), a line whose trimmed form is
non-empty and does not start with the two comment prefixes is counted as
code no matter what surrounds it, and consequently in a span containing a
multi-line block comment the continuation line and the closing line are
counted as code, not comment: the five-line span with a block comment
opened on line 2 yields total 5, code 4, comment 1, empty 0. -/
theorem c10_trimmed_prefix_only :
    (∀ xs ys : List String,
      count_lines (xs ++ ys) =
        ((count_lines xs).1 + (count_lines ys).1,
         (count_lines xs).2.1 + (count_lines ys).2.1,
         (count_lines xs).2.2 + (count_lines ys).2.2))
    ∧ (∀ l : String, (trim_chars l.data).isEmpty = false →
        starts_with_chars (trim_chars l.data) ['/', '/'] = false →
        starts_with_chars (trim_chars l.data) ['/', '*'] = false →
        classify_line l = (1, 0, 0))
    ∧ count_function_lines ⟨"f", ["fn f() \x7b", "/* a", "b", "*/", "\x7d"]⟩
        = (5, 4, 1, 0) := by
  refine ⟨count_lines_append, ?_, by decide⟩
  intro l h1 h2 h3
  simp [classify_line, h1, h2, h3]

/-- Witness for C10: the closing line of a block comment is classified as
code. -/
theorem c10_trimmed_prefix_only_witness : classify_line "*/" = (1, 0, 0) :=
  c10_trimmed_prefix_only.2.1 "*/" (by decide) (by decide) (by decide)

end Fnloc
